import Mathlib

/-
Verification of the clustering module (manta/cluster.py) against its design
specification.

Shallow embedding conventions:
* Python floats are modelled as rationals (ℚ); the constants 0.5 and 0.3 of the
  source become 1/2 and 3/10.
* A networkx weighted undirected graph is a list of node identifiers (naturals)
  together with a list of stored edges, each an ordered pair of endpoints with a
  rational weight.  `Graph.WF` captures the networkx representation invariants:
  node identifiers are distinct, edge endpoints are nodes, and no unordered
  endpoint pair is stored twice (networkx merges parallel and reversed edges).
* Python dicts are association lists in insertion order (`dGet`, `dSet`);
  Python sets are modelled with `List.dedup`.  Set/dict iteration order is
  implementation defined in CPython; every fact proved below is insensitive to
  that order.
* Code that can raise an exception is modelled with `Except`: the unguarded
  `1/len(graph.edges)` of `sparsity_score` (ZeroDivisionError on a zero-edge
  graph) and the `None + 1` of the unsupported-algorithm branch of `cluster_hard`
  (TypeError).  External collaborators (the diffusion process, KMeans, the
  random 2-label vector, networkx all_shortest_paths) are parameters; a
  shortest-path query returning `none` models the NetworkXNoPath exception.
* stdout diagnostics carry no data flow; the conditions under which they fire
  are stated as propositions about the modelled values.
-/

namespace Manta

/-- Maximum of a list of rationals (0 on the empty list).  Models Python
`max` / `np.max`, which the source only applies to nonempty collections;
theorems carry nonemptiness hypotheses wherever the code requires it. -/
def listMax : List ℚ → ℚ
  | [] => 0
  | x :: xs => xs.foldl max x

/-- Minimum of a list of rationals (0 on the empty list), modelling `np.min`. -/
def listMin : List ℚ → ℚ
  | [] => 0
  | x :: xs => xs.foldl min x

/-- Helper for `npArgmax`: scan the tail, keeping the current best value and
its index; a later element wins only if strictly larger. -/
def argmaxAux : List ℚ → ℕ → ℚ → ℕ → ℕ
  | [], _, _, best => best
  | x :: xs, i, bv, best =>
      if bv < x then argmaxAux xs (i + 1) x i else argmaxAux xs (i + 1) bv best

/-- Index of the first occurrence of the maximum value, modelling `np.argmax`
(0 on the empty list, which the source never passes). -/
def npArgmax : List ℚ → ℕ
  | [] => 0
  | x :: xs => argmaxAux xs 1 x 0

/-- All unordered pairs of elements in list order, modelling
`itertools.combinations(l, 2)`. -/
def pairComb {α : Type} : List α → List (α × α)
  | [] => []
  | x :: xs => xs.map (fun y => (x, y)) ++ pairComb xs

/-- Dictionary lookup on an association list (first entry with the key),
modelling `d[k]` where `none` is a KeyError. -/
def dGet {κ ν : Type} [DecidableEq κ] (d : List (κ × ν)) (k : κ) : Option ν :=
  (d.find? (fun kv => decide (kv.1 = k))).map (fun kv => kv.2)

/-- Dictionary lookup with a default value, modelling `d.get(k, v0)` and the
lookups the source performs on keys it has populated. -/
def dGetD {κ ν : Type} [DecidableEq κ] (d : List (κ × ν)) (k : κ) (v0 : ν) : ν :=
  (dGet d k).getD v0

/-- Dictionary update `d[k] = v` with Python insertion-order semantics: an
existing key keeps its position, a new key is appended. -/
def dSet {κ ν : Type} [DecidableEq κ] (d : List (κ × ν)) (k : κ) (v : ν) :
    List (κ × ν) :=
  if (dGet d k).isSome then d.map (fun kv => if kv.1 = k then (kv.1, v) else kv)
  else d ++ [(k, v)]

/-- Sign of a rational, modelling `np.sign`. -/
def qsign (x : ℚ) : ℤ := if 0 < x then 1 else if x < 0 then -1 else 0

/-- Integer interval [a, b), modelling Python `range(a, b)`. -/
def intRange (a b : ℤ) : List ℤ := (List.range (b - a).toNat).map (fun i => a + i)

/-- A weighted undirected graph: node identifiers in enumeration order and
stored edges, each an endpoint pair (in its stored orientation) with a weight. -/
structure Graph where
  nodes : List ℕ
  wedges : List (ℕ × ℕ × ℚ)

/-- Edge list in stored orientation, modelling `graph.edges`. -/
def Graph.edges (g : Graph) : List (ℕ × ℕ) :=
  g.wedges.map (fun e => (e.1, e.2.1))

/-- Weight lookup, symmetric in the endpoints, modelling
the weight attribute lookup `graph[u][v]` (0 stands for the KeyError case, which the source
never hits because it looks up edges of the graph only). -/
def Graph.w (g : Graph) (u v : ℕ) : ℚ :=
  match g.wedges.find?
      (fun e => decide ((e.1 = u ∧ e.2.1 = v) ∨ (e.1 = v ∧ e.2.1 = u))) with
  | some e => e.2.2
  | none => 0

/-- Two stored edges carry the same unordered endpoint pair. -/
def SamePair (e f : ℕ × ℕ × ℚ) : Prop :=
  (e.1 = f.1 ∧ e.2.1 = f.2.1) ∨ (e.1 = f.2.1 ∧ e.2.1 = f.1)

/-- Representation invariants of a networkx graph: distinct node identifiers,
edge endpoints drawn from the node list, and no unordered endpoint pair stored
at two distinct positions (networkx merges parallel and reversed duplicate
edges into one). -/
def Graph.WF (g : Graph) : Prop :=
  g.nodes.Nodup ∧
  (∀ e ∈ g.wedges, e.1 ∈ g.nodes ∧ e.2.1 ∈ g.nodes) ∧
  (∀ i ∈ List.range g.wedges.length, ∀ j ∈ List.range g.wedges.length,
    SamePair (g.wedges.getD i (0, 0, 0)) (g.wedges.getD j (0, 0, 0)) → i = j)

instance decSamePair (e f : ℕ × ℕ × ℚ) : Decidable (SamePair e f) := by
  unfold SamePair
  infer_instance

instance decWF (g : Graph) : Decidable g.WF := by
  unfold Graph.WF
  infer_instance

/-- Matrix index of a node, modelling the `adj_index` dictionary that
`cluster_graph` builds from the node enumeration. -/
def adjIndex (g : Graph) (x : ℕ) : ℕ := g.nodes.indexOf x

/-- Cluster label of a node under an assignment vector (label of position
`adj_index[u]`).  Derived notion used to state the per-edge reading of
`sparsity_score`. -/
def labelOf (g : Graph) (clusters : List ℤ) (u : ℕ) : ℤ :=
  clusters.getD (g.nodes.indexOf u) 0

/-- The per-edge weight `cut_score = 1/len(graph.edges)` of `sparsity_score`.
In ℚ the zero-edge case yields the junk value 0; `sparsity_scoreE` records
that Python raises ZeroDivisionError there instead. -/
def cut_score (g : Graph) : ℚ := 1 / (g.edges.length : ℚ)

/-- Positions holding a given label, modelling
`np.where(clusters == cluster_id)[0]`. -/
def npWhere (clusters : List ℤ) (cid : ℤ) : List ℕ :=
  (List.range clusters.length).filter (fun i => decide (clusters.getD i 0 = cid))

/-- Member nodes of one cluster, modelling
`[rev_index.get(item, item) for item in np.where(clusters == cluster_id)[0]]`
(the dictionary default returns the bare index when it is out of range). -/
def node_ids (g : Graph) (clusters : List ℤ) (cid : ℤ) : List ℕ :=
  (npWhere clusters cid).map (fun i => g.nodes.getD i i)

/-- Edges of the subgraph induced by a node subset, modelling
`graph.subgraph(node_ids).edges`. -/
def subgraphEdges (g : Graph) (ns : List ℕ) : List (ℕ × ℕ) :=
  g.edges.filter (fun e => decide (e.1 ∈ ns) && decide (e.2 ∈ ns))

/-- The `edges` accumulator of `sparsity_score`: all induced-subgraph edges
collected over the distinct cluster labels. -/
def intraEdges (g : Graph) (clusters : List ℤ) : List (ℕ × ℕ) :=
  clusters.dedup.flatMap (fun cid => subgraphEdges g (node_ids g clusters cid))

/-- Contribution of the intra-cluster loop of `sparsity_score`: subtract
`cut_score` for a negative-weight edge kept inside a cluster, add it
otherwise. -/
def intraSum (g : Graph) (clusters : List ℤ) : ℚ :=
  ((intraEdges g clusters).map
    (fun e => if g.w e.1 e.2 < 0 then -cut_score g else cut_score g)).sum

/-- The `cuts` list of `sparsity_score`: graph edges present in the
induced subgraph of no cluster, matching either endpoint orientation. -/
def cuts (g : Graph) (clusters : List ℤ) : List (ℕ × ℕ) :=
  g.edges.filter (fun e =>
    decide (e ∉ intraEdges g clusters) && decide ((e.2, e.1) ∉ intraEdges g clusters))

/-- The sparsity score of `sparsity_score` (lines 84-136): intra-cluster
contributions plus cut contributions, where a cut through a positive-weight
edge is penalized and any other cut rewarded. -/
def sparsity_score (g : Graph) (clusters : List ℤ) : ℚ :=
  intraSum g clusters +
    ((cuts g clusters).map
      (fun e => if 0 < g.w e.1 e.2 then -cut_score g else cut_score g)).sum

/-- `sparsity_score` with its exception behaviour: on a zero-edge graph the
very first statement `cut_score = 1/len(graph.edges)` raises
ZeroDivisionError, so no numeric score is ever produced. -/
def sparsity_scoreE (g : Graph) (clusters : List ℤ) : Except String ℚ :=
  if g.edges.length = 0 then Except.error "ZeroDivisionError: division by zero"
  else Except.ok (sparsity_score g clusters)

/-- Per-edge contribution of `sparsity_score` as the code computes it: an edge
whose endpoints share a label follows the intra-cluster branch (negative
weights penalized, weights that are not negative rewarded); an edge whose
endpoints have different labels follows the cut branch (positive weights
penalized, weights that are not positive rewarded). -/
def edgeContrib (g : Graph) (clusters : List ℤ) (e : ℕ × ℕ) : ℚ :=
  if labelOf g clusters e.1 = labelOf g clusters e.2 then
    if g.w e.1 e.2 < 0 then -cut_score g else cut_score g
  else
    if 0 < g.w e.1 e.2 then -cut_score g else cut_score g

/-- Per-edge contribution exactly as the specification words it (claim C1): a
same-cluster edge contributes +1/E when its weight is positive and -1/E when
negative; a cross-cluster edge contributes +1/E when its weight is negative
and -1/E when positive.  Stated from the spec, to be compared with
`edgeContrib`, which is read off the code; the two differ only on weight-zero
edges, which the spec sentence does not classify. -/
def specEdgeContrib (g : Graph) (clusters : List ℤ) (e : ℕ × ℕ) : ℚ :=
  if labelOf g clusters e.1 = labelOf g clusters e.2 then
    if 0 < g.w e.1 e.2 then cut_score g else -cut_score g
  else
    if g.w e.1 e.2 < 0 then cut_score g else -cut_score g

/-- The KMeans branch of `cluster_hard` (lines 151-180): score a random
2-label baseline, score one KMeans run per k in [min_clusters, max_clusters],
take `topscore = argmax(scores) + min_clusters - 1`, rerun KMeans at
`topscore` and shift all labels by +1.  The external clustering primitive and
the random baseline are parameters. -/
def cluster_hard (g : Graph) (scoremat : List (List ℚ))
    (fit_predict : List (List ℚ) → ℤ → List ℤ) (randomclust : List ℤ)
    (max_clusters min_clusters : ℤ) : List ℤ :=
  let scores := sparsity_score g randomclust ::
    (intRange min_clusters (max_clusters + 1)).map
      (fun i => sparsity_score g (fit_predict scoremat i))
  let topscore : ℤ := (npArgmax scores : ℤ) + min_clusters - 1
  (fit_predict scoremat topscore).map (fun x => x + 1)

/-- `cluster_hard` with its unsupported-algorithm behaviour: any algorithm
name other than KMeans leaves `bestcluster = None` after a warning, and the
unconditional `bestcluster + 1` then raises TypeError, so no assignment is
returned. -/
def cluster_hardE (g : Graph) (cluster : String) (scoremat : List (List ℚ))
    (fit_predict : List (List ℚ) → ℤ → List ℤ) (randomclust : List ℤ)
    (max_clusters min_clusters : ℤ) : Except String (List ℤ) :=
  if cluster = "KMeans" then
    Except.ok (cluster_hard g scoremat fit_predict randomclust max_clusters min_clusters)
  else
    Except.error "TypeError: unsupported operand type for +: NoneType and int"

/-- The warning condition of `cluster_hard`: the fallback message fires
exactly when `topscore < min_clusters`, i.e. when the random baseline at list
index 0 is the argmax. -/
def hardWarnCondition (g : Graph) (scoremat : List (List ℚ))
    (fit_predict : List (List ℚ) → ℤ → List ℤ) (randomclust : List ℤ)
    (max_clusters min_clusters : ℤ) : Prop :=
  let scores := sparsity_score g randomclust ::
    (intRange min_clusters (max_clusters + 1)).map
      (fun i => sparsity_score g (fit_predict scoremat i))
  ((npArgmax scores : ℤ) + min_clusters - 1) < min_clusters

/-- Diagonal time series of one node across the diffusion trajectory,
modelling `difmats[:, index, index]`. -/
def diagSeq (difmats : List (List (List ℚ))) (i : ℕ) : List ℚ :=
  difmats.map (fun m => (m.getD i []).getD i 0)

/-- Amplitude `np.max(seq) - np.min(seq)` of a series. -/
def amplitude (s : List ℚ) : ℚ := listMax s - listMin s

/-- Candidate-oscillator positions: indices whose diagonal trajectory has
amplitude strictly above 0.5 (`_core_oscillators`, first loop). -/
def oscillatorIdx (difmats : List (List (List ℚ))) (assignment : List ℤ) : List ℕ :=
  (List.range assignment.length).filter
    (fun i => decide ((1 : ℚ)/2 < amplitude (diagSeq difmats i)))

/-- Candidate oscillators as node identifiers,
`oscillators = [rev_index[x] for x in oscillators]`. -/
def oscillatorsOf (g : Graph) (difmats : List (List (List ℚ)))
    (assignment : List ℤ) : List ℕ :=
  (oscillatorIdx difmats assignment).map (fun i => g.nodes.getD i 0)

/-- Elementwise difference of two equal-length series (numpy subtraction). -/
def seqSub (a b : List ℚ) : List ℚ := (a.zip b).map (fun p => p.1 - p.2)

/-- The `amplis` dictionary of `_core_oscillators`: for every combination of
candidate-oscillator positions, the amplitude of the difference of their
diagonal series, keyed by the node-identifier pair. -/
def amplisOf (g : Graph) (difmats : List (List (List ℚ)))
    (assignment : List ℤ) : List ((ℕ × ℕ) × ℚ) :=
  let idx := oscillatorIdx difmats assignment
  let osc := oscillatorsOf g difmats assignment
  (pairComb (List.range idx.length)).map (fun p =>
    ((osc.getD p.1 0, osc.getD p.2 0),
      amplitude (seqSub (diagSeq difmats (idx.getD p.1 0))
                        (diagSeq difmats (idx.getD p.2 0)))))

/-- The `clusdict` of `_core_oscillators`: oscillator node to the label of its
position in the assignment. -/
def clusdictOf (g : Graph) (assignment : List ℤ) (osc : List ℕ) : List (ℕ × ℤ) :=
  osc.dedup.map (fun x => (x, assignment.getD (g.nodes.indexOf x) 0))

/-- One step of the per-cluster strongest-anti-correlation scan of
`_core_oscillators`: the state is `(clus_corrs, clus_nodes)`; the clusters of
both pair members are updated in sequence when the amplitude of the pair strictly
exceeds the recorded one. -/
def clusNodesStep (clusdict : List (ℕ × ℤ))
    (st : List (ℤ × ℚ) × List (ℤ × Option (ℕ × ℕ)))
    (entry : (ℕ × ℕ) × ℚ) : List (ℤ × ℚ) × List (ℤ × Option (ℕ × ℕ)) :=
  let c1 := dGetD clusdict entry.1.1 0
  let c2 := dGetD clusdict entry.1.2 0
  let st1 :=
    if dGetD st.1 c1 0 < entry.2 then
      (dSet st.1 c1 entry.2, dSet st.2 c1 (some entry.1)) else st
  if dGetD st1.1 c2 0 < entry.2 then
    (dSet st1.1 c2 entry.2, dSet st1.2 c2 (some entry.1)) else st1

/-- The filtered `clus_nodes` of `_core_oscillators`: per cluster label, the
candidate pair of strongest anti-correlation touching that cluster, with the
clusters that never received a pair dropped. -/
def clusNodesOf (g : Graph) (difmats : List (List (List ℚ)))
    (assignment : List ℤ) : List (ℤ × (ℕ × ℕ)) :=
  let clusdict := clusdictOf g assignment (oscillatorsOf g difmats assignment)
  let init : List (ℤ × ℚ) × List (ℤ × Option (ℕ × ℕ)) :=
    (assignment.dedup.map (fun cid => (cid, 0)),
     assignment.dedup.map (fun cid => (cid, none)))
  let st := (amplisOf g difmats assignment).foldl (clusNodesStep clusdict) init
  st.2.filterMap (fun kv => match kv.2 with
    | some v => some (kv.1, v)
    | none => none)

/-- The `core_oscillators` set: union of all recorded pair members. -/
def coreOscillatorsOf (g : Graph) (difmats : List (List (List ℚ)))
    (assignment : List ℤ) : List ℕ :=
  ((clusNodesOf g difmats assignment).flatMap (fun kv => [kv.2.1, kv.2.2])).dedup

/-- Amplitude lookup with orientation fallback, modelling the
`amplis[nodes]` / `amplis[(nodes[1], nodes[0])]` try/except of
`_core_oscillators` (the second KeyError cannot fire because `amplis` covers
every candidate pair in one of the two orders; 0 is the junk value). -/
def ampliLookup (amplis : List ((ℕ × ℕ) × ℚ)) (a b : ℕ) : ℚ :=
  match dGet amplis (a, b) with
  | some v => v
  | none => dGetD amplis (b, a) 0

/-- One step of the strongest-partner scan over core oscillators: the state is
`(id_corrs, anti_sizes)`, both members updated in sequence on strict
improvement. -/
def idCorrsStep (amplis : List ((ℕ × ℕ) × ℚ))
    (st : List (ℕ × ℕ) × List (ℕ × ℚ)) (p : ℕ × ℕ) :
    List (ℕ × ℕ) × List (ℕ × ℚ) :=
  let size := ampliLookup amplis p.1 p.2
  let st1 :=
    if dGetD st.2 p.1 0 < size then (dSet st.1 p.1 p.2, dSet st.2 p.1 size) else st
  if dGetD st1.2 p.2 0 < size then (dSet st1.1 p.2 p.1, dSet st1.2 p.2 size) else st1

/-- `_core_oscillators` (lines 233-303): returns the core oscillator set and
the anti-correlation map from the cluster of each core oscillator to the cluster
of its strongest anti-correlated partner.  The integer 0 initial value of
`id_corrs`, and the dictionary defaults standing for lookups the code performs
on populated keys, are modelled with `dGetD` defaults. -/
def core_oscillators (g : Graph) (difmats : List (List (List ℚ)))
    (assignment : List ℤ) : List ℕ × List (ℤ × ℤ) :=
  let core := coreOscillatorsOf g difmats assignment
  let amplis := amplisOf g difmats assignment
  let clusdict := clusdictOf g assignment (oscillatorsOf g difmats assignment)
  let init : List (ℕ × ℕ) × List (ℕ × ℚ) :=
    (core.map (fun x => (x, 0)), core.map (fun x => (x, 0)))
  let st := (pairComb core).foldl (idCorrsStep amplis) init
  let clusdict2 := clusdict.filter (fun kv => decide (kv.1 ∈ core))
  let anti_corrs := core.foldl (fun acc x =>
    dSet acc (dGetD clusdict2 x 0) (dGetD clusdict2 (dGetD st.1 x 0) 0)) []
  (core, anti_corrs)

/-- The maximum stored edge weight, `max(weights.values())` of
`_oscillator_paths` (Python raises ValueError on a graph without edges;
theorems carry the nonemptiness hypothesis). -/
def maxWeight (g : Graph) : ℚ := listMax (g.wedges.map (fun e => e.2.2))

/-- Normalized symmetric edge-weight lookup of `_oscillator_paths`: edge
weight divided by the maximum weight, available in both orientations. -/
def normWeight (g : Graph) (u v : ℕ) : ℚ := g.w u v / maxWeight g

/-- Product of normalized edge weights along one path. -/
def pathProduct (g : Graph) : List ℕ → ℚ
  | [] => 1
  | [_] => 1
  | a :: b :: rest => normWeight g a b * pathProduct g (b :: rest)

/-- The resonance value `corrdict[node][target]` of `_oscillator_paths`: the
mean over all shortest paths of the path products, and exactly -1 when the
shortest-path query raises NetworkXNoPath (modelled by the collaborator
returning `none`). -/
def corrVal (g : Graph) (paths : ℕ → ℕ → Option (List (List ℕ)))
    (node target : ℕ) : ℚ :=
  match paths node target with
  | none => -1
  | some ps => ((ps.map (pathProduct g)).sum) / (ps.length : ℚ)

/-- The inner dictionary `corrdict[node]` of `_oscillator_paths`: one
resonance entry per graph node, built in node enumeration order. -/
def corrdictFor (g : Graph) (paths : ℕ → ℕ → Option (List (List ℕ)))
    (node : ℕ) : List (ℕ × ℚ) :=
  g.nodes.map (fun t => (t, corrVal g paths node t))

/-- Targets for which the NetworkXNoPath branch fires while building
`corrdict[node]`; the source writes one unreachable-target message per
element and continues. -/
def noPathTargets (g : Graph) (paths : ℕ → ℕ → Option (List (List ℕ)))
    (node : ℕ) : List ℕ :=
  g.nodes.filter (fun t => (paths node t).isNone)

/-- The reversed `clusdict` of `_oscillator_paths`: cluster label to its core
oscillator, later oscillators overwriting earlier ones with the same label, as
in the Python dict comprehension. -/
def revClusdict (g : Graph) (assignment : List ℤ) (core : List ℕ) :
    List (ℤ × ℕ) :=
  core.dedup.foldl
    (fun acc x => dSet acc (assignment.getD (g.nodes.indexOf x) 0) x) []

/-- `_oscillator_paths` (lines 306-390): flag nodes whose resonance sign
matches the anti-correlated oscillator or is zero towards it
(`clus_matches`), is negative towards the own-cluster oscillator
(`clus_assign`), or falls strictly inside (-edgescale, edgescale)
(`varweights`); a missing oscillator or anti-correlation entry (KeyError) is
caught and skips the corresponding checks.  Returns the deduplicated matrix
indices of `clus_assign + varweights + clus_matches`. -/
def oscillator_paths (g : Graph) (paths : ℕ → ℕ → Option (List (List ℕ)))
    (core_oscillators : List ℕ) (anti_corrs : List (ℤ × ℤ))
    (assignment : List ℤ) (edgescale : ℚ) : List ℕ :=
  let rcd := revClusdict g assignment core_oscillators
  let clus_matches := g.nodes.flatMap (fun target =>
    let clus_id := assignment.getD (g.nodes.indexOf target) 0
    match dGet anti_corrs clus_id, dGet rcd clus_id with
    | some opposite, some o1 =>
      match dGet rcd opposite with
      | some o2 =>
        (if qsign (corrVal g paths o1 target) = qsign (corrVal g paths o2 target)
         then [target] else []) ++
        (if qsign (corrVal g paths o2 target) = 0 then [target] else [])
      | none => []
    | _, _ => [])
  let clus_assign := g.nodes.flatMap (fun target =>
    let clus_id := assignment.getD (g.nodes.indexOf target) 0
    match dGet rcd clus_id with
    | some o1 => if qsign (corrVal g paths o1 target) = -1 then [target] else []
    | none => [])
  let varweights := g.nodes.flatMap (fun target =>
    let clus_id := assignment.getD (g.nodes.indexOf target) 0
    match dGet rcd clus_id with
    | some o1 =>
      if -edgescale < corrVal g paths o1 target ∧ corrVal g paths o1 target < edgescale
      then [target] else []
    | none => [])
  ((clus_assign ++ varweights ++ clus_matches).map (fun x => g.nodes.indexOf x)).dedup

/-- The trial scores of `_node_sparsity` for one flagged node: the sparsity
score after reassigning the node to each other label present in the
assignment. -/
def otherSparsities (g : Graph) (assignment : List ℤ) (node : ℕ) : List ℚ :=
  (assignment.dedup.filter (fun cid => decide (cid ≠ assignment.getD node 0))).map
    (fun cid => sparsity_score g (assignment.set node cid))

/-- `_node_sparsity` (lines 392-407): starting from a copy of the flagged
list, remove every node whose best trial reassignment scores strictly below
`baseline - 0.3`; the survivors stay flagged. -/
def node_sparsity (g : Graph) (removals : List ℕ) (assignment : List ℤ) :
    List ℕ :=
  removals.foldl (fun acc node =>
    if listMax (otherSparsities g assignment node) <
        sparsity_score g assignment - 3/10 then
      acc.erase node
    else acc) removals

/-- `cluster_fuzzy` (lines 183-230) with the exception flow of its
`cluster_hard` call: hard-cluster first, find oscillators, and when `fuzzy`
is set, flag path-conflicting nodes, validate them by sparsity impact, and
zero out the labels of the survivors. -/
def cluster_fuzzyE (g : Graph) (diffs : List (List (List ℚ)))
    (scoremat : List (List ℚ)) (cluster : String)
    (fit_predict : List (List ℚ) → ℤ → List ℤ) (randomclust : List ℤ)
    (paths : ℕ → ℕ → Option (List (List ℕ))) (edgescale : ℚ)
    (max_clusters min_clusters : ℤ) (fuzzy : Bool) : Except String (List ℤ) := do
  let bestcluster ←
    cluster_hardE g cluster scoremat fit_predict randomclust max_clusters min_clusters
  let ca := core_oscillators g diffs bestcluster
  if fuzzy then
    let remove_cluster := oscillator_paths g paths ca.1 ca.2 bestcluster edgescale
    let updated_removals := node_sparsity g remove_cluster bestcluster
    return updated_removals.foldl (fun acc i => acc.set i 0) bestcluster
  else
    return bestcluster

/-- `cluster_graph` (lines 31-81) with its exception flow: route to the hard
or fuzzy pipeline on the `memory` signal of the diffusion collaborator and, on
success, produce the per-node cluster attribute written onto the graph
(`clusdict`); an error means `nx.set_node_attributes` is never reached and the
graph keeps its attributes.  The diffusion results, the fallback matrix, the
clustering primitive, the random baseline and the shortest-path query are
external collaborators passed as parameters. -/
def cluster_graphE (g : Graph)
    (diffusionRes : List (List ℚ) × Bool × Bool × List (List (List ℚ)))
    (fallbackMat : List (List ℚ)) (fit_predict : List (List ℚ) → ℤ → List ℤ)
    (randomclust : List ℤ) (paths : ℕ → ℕ → Option (List (List ℕ)))
    (max_clusters min_clusters : ℤ) (edgescale : ℚ) (cluster : String)
    (fuzzy : Bool) : Except String (List (ℕ × ℚ)) := do
  let memory := diffusionRes.2.1
  let convergence := diffusionRes.2.2.1
  let diffs := diffusionRes.2.2.2
  let scoremat := if memory || convergence then fallbackMat else diffusionRes.1
  let bestcluster ←
    if memory then
      cluster_fuzzyE g diffs scoremat cluster fit_predict randomclust paths
        edgescale max_clusters min_clusters fuzzy
    else
      cluster_hardE g cluster scoremat fit_predict randomclust max_clusters min_clusters
  return (List.range g.nodes.length).map
    (fun i => (g.nodes.getD i 0, ((bestcluster.getD i 0 : ℤ) : ℚ)))

/-- Orientation swap of a stored edge. -/
def swapTriple (e : ℕ × ℕ × ℚ) : ℕ × ℕ × ℚ := (e.2.1, e.1, e.2.2)

/-- The graph with the stored edge at position `i` presented in the opposite
orientation (unchanged when `i` is out of range). -/
def flipEdge (g : Graph) (i : ℕ) : Graph :=
  { nodes := g.nodes,
    wedges := g.wedges.set i (swapTriple (g.wedges.getD i (0, 0, 0))) }

/-! Generic summation lemmas used to read `sparsity_score` edge by edge. -/

theorem sum_map_filter_eq {α : Type} (l : List α) (p : α → Bool) (f : α → ℚ) :
    ((l.filter p).map f).sum = (l.map (fun a => if p a then f a else 0)).sum := by
  induction l with
  | nil => rfl
  | cons x xs ih => cases hx : p x <;> simp [List.filter_cons, hx, ih]

theorem sum_map_ite_add_ite {α : Type} (l : List α) (P Q : α → Prop)
    [DecidablePred P] [DecidablePred Q] (f : α → ℚ)
    (h : ∀ a ∈ l, ¬ (P a ∧ Q a)) :
    (l.map (fun a => if P a then f a else 0)).sum
      + (l.map (fun a => if Q a then f a else 0)).sum
      = (l.map (fun a => if P a ∨ Q a then f a else 0)).sum := by
  rw [← List.sum_map_add]
  refine congrArg _ (List.map_congr_left fun a ha => ?_)
  by_cases hp : P a
  · by_cases hq : Q a
    · exact absurd ⟨hp, hq⟩ (h a ha)
    · simp [hp, hq]
  · by_cases hq : Q a <;> simp [hp, hq]

theorem flatMap_congr {α β : Type} {f h : α → List β} :
    ∀ {l : List α}, (∀ a ∈ l, f a = h a) → l.flatMap f = l.flatMap h := by
  intro l
  induction l with
  | nil => intro _; rfl
  | cons x xs ih =>
    intro hfh
    rw [List.flatMap_cons, List.flatMap_cons, hfh x (by simp),
      ih (fun a ha => hfh a (by simp [ha]))]

theorem sum_flatMap_label {α : Type} (E : List α) (lab1 lab2 : α → ℤ) (f : α → ℚ) :
    ∀ cids : List ℤ, cids.Nodup →
      ((cids.flatMap (fun cid =>
          E.filter (fun e => decide (lab1 e = cid) && decide (lab2 e = cid)))).map f).sum
        = (E.map (fun e => if lab1 e = lab2 e ∧ lab1 e ∈ cids then f e else 0)).sum := by
  intro cids
  induction cids with
  | nil => simp
  | cons c rest ih =>
    intro hnd
    have hc : c ∉ rest := (List.nodup_cons.1 hnd).1
    rw [List.flatMap_cons, List.map_append, List.sum_append, ih (List.nodup_cons.1 hnd).2,
      sum_map_filter_eq]
    have hconv : (E.map (fun e =>
        if (decide (lab1 e = c) && decide (lab2 e = c)) = true then f e else 0)).sum
        = (E.map (fun e => if lab1 e = c ∧ lab2 e = c then f e else 0)).sum := by
      refine congrArg _ (List.map_congr_left fun a _ => ?_)
      by_cases h1 : lab1 a = c <;> by_cases h2 : lab2 a = c <;> simp [h1, h2]
    rw [hconv,
      sum_map_ite_add_ite E (fun e => lab1 e = c ∧ lab2 e = c)
        (fun e => lab1 e = lab2 e ∧ lab1 e ∈ rest) f
        (by rintro a _ ⟨⟨h1, _⟩, _, h3⟩; exact hc (h1 ▸ h3))]
    refine congrArg _ (List.map_congr_left fun a _ => ?_)
    have hiff : (lab1 a = c ∧ lab2 a = c) ∨ (lab1 a = lab2 a ∧ lab1 a ∈ rest) ↔
        lab1 a = lab2 a ∧ lab1 a ∈ c :: rest := by
      constructor
      · rintro (⟨h1, h2⟩ | ⟨h1, h2⟩)
        · exact ⟨h1.trans h2.symm, by simp [h1]⟩
        · exact ⟨h1, by simp [h2]⟩
      · rintro ⟨h1, h2⟩
        rcases List.mem_cons.1 h2 with h3 | h3
        · exact Or.inl ⟨h3, h1 ▸ h3⟩
        · exact Or.inr ⟨h1, h3⟩
    rw [if_congr hiff rfl rfl]

theorem sum_bound {α : Type} (f : α → ℚ) (c : ℚ) (hc : 0 ≤ c) :
    ∀ l : List α, (∀ x ∈ l, f x = c ∨ f x = -c) →
      -((l.length : ℚ) * c) ≤ (l.map f).sum ∧ (l.map f).sum ≤ (l.length : ℚ) * c := by
  intro l
  induction l with
  | nil => simp
  | cons x xs ih =>
    intro h
    obtain ⟨ih1, ih2⟩ := ih (fun y hy => h y (by simp [hy]))
    have hx := h x (by simp)
    simp only [List.map_cons, List.sum_cons, List.length_cons]
    push_cast
    rcases hx with hx | hx <;> rw [hx] <;> constructor <;> linarith

/-! Reading `sparsity_score` as a sum of independent per-edge contributions. -/

theorem edge_endpoints {g : Graph} (hwf : g.WF) {e : ℕ × ℕ} (he : e ∈ g.edges) :
    e.1 ∈ g.nodes ∧ e.2 ∈ g.nodes := by
  unfold Graph.edges at he
  obtain ⟨we, hwe, hproj⟩ := List.mem_map.1 he
  obtain ⟨h1, h2⟩ := hwf.2.1 we hwe
  rw [← hproj]
  exact ⟨h1, h2⟩

theorem labelOf_mem {g : Graph} {clusters : List ℤ}
    (hlen : clusters.length = g.nodes.length) {u : ℕ} (hu : u ∈ g.nodes) :
    labelOf g clusters u ∈ clusters := by
  unfold labelOf
  have hi : g.nodes.indexOf u < clusters.length := by
    rw [hlen]; exact List.indexOf_lt_length.2 hu
  rw [List.getD_eq_getElem _ _ hi]
  exact List.getElem_mem hi

theorem mem_node_ids {g : Graph} {clusters : List ℤ}
    (hwf : g.WF) (hlen : clusters.length = g.nodes.length) (u : ℕ) (cid : ℤ) :
    u ∈ node_ids g clusters cid ↔ u ∈ g.nodes ∧ labelOf g clusters u = cid := by
  unfold node_ids npWhere labelOf
  simp only [List.mem_map, List.mem_filter, List.mem_range, decide_eq_true_eq]
  constructor
  · rintro ⟨i, ⟨hi, hcid⟩, hu⟩
    have hi' : i < g.nodes.length := hlen ▸ hi
    rw [List.getD_eq_getElem _ _ hi'] at hu
    have humem : u ∈ g.nodes := hu ▸ List.getElem_mem hi'
    have hlt : g.nodes.indexOf u < g.nodes.length := List.indexOf_lt_length.2 humem
    have hval : g.nodes[g.nodes.indexOf u] = u := List.getElem_indexOf hlt
    have hidx : g.nodes.indexOf u = i := hwf.1.getElem_inj_iff.mp (hval.trans hu.symm)
    rw [hidx]
    exact ⟨humem, hcid⟩
  · rintro ⟨humem, hlab⟩
    have hlt : g.nodes.indexOf u < g.nodes.length := List.indexOf_lt_length.2 humem
    refine ⟨g.nodes.indexOf u, ⟨by rw [hlen]; exact hlt, hlab⟩, ?_⟩
    rw [List.getD_eq_getElem _ _ hlt]
    exact List.getElem_indexOf hlt

theorem subgraphEdges_node_ids {g : Graph} {clusters : List ℤ}
    (hwf : g.WF) (hlen : clusters.length = g.nodes.length) (cid : ℤ) :
    subgraphEdges g (node_ids g clusters cid)
      = g.edges.filter (fun e =>
          decide (labelOf g clusters e.1 = cid) && decide (labelOf g clusters e.2 = cid)) := by
  unfold subgraphEdges
  refine List.filter_congr fun e he => ?_
  obtain ⟨h1, h2⟩ := edge_endpoints hwf he
  have m1 := mem_node_ids hwf hlen e.1 cid
  have m2 := mem_node_ids hwf hlen e.2 cid
  simp [m1, m2, h1, h2]

theorem intraEdges_eq {g : Graph} {clusters : List ℤ}
    (hwf : g.WF) (hlen : clusters.length = g.nodes.length) :
    intraEdges g clusters = clusters.dedup.flatMap (fun cid =>
      g.edges.filter (fun e =>
        decide (labelOf g clusters e.1 = cid) && decide (labelOf g clusters e.2 = cid))) :=
  flatMap_congr (fun cid _ => subgraphEdges_node_ids hwf hlen cid)

theorem mem_intraEdges {g : Graph} {clusters : List ℤ}
    (hwf : g.WF) (hlen : clusters.length = g.nodes.length) (e : ℕ × ℕ) :
    e ∈ intraEdges g clusters ↔
      e ∈ g.edges ∧ labelOf g clusters e.1 = labelOf g clusters e.2 := by
  rw [intraEdges_eq hwf hlen]
  simp only [List.mem_flatMap, List.mem_filter, List.mem_dedup, Bool.and_eq_true,
    decide_eq_true_eq]
  constructor
  · rintro ⟨cid, _, he, h1, h2⟩
    exact ⟨he, h1.trans h2.symm⟩
  · rintro ⟨he, hl⟩
    exact ⟨labelOf g clusters e.1,
      labelOf_mem hlen (edge_endpoints hwf he).1, he, rfl, hl.symm⟩

theorem intraSum_eq {g : Graph} {clusters : List ℤ}
    (hwf : g.WF) (hlen : clusters.length = g.nodes.length) :
    intraSum g clusters = (g.edges.map (fun e =>
      if labelOf g clusters e.1 = labelOf g clusters e.2 then
        (if g.w e.1 e.2 < 0 then -cut_score g else cut_score g)
      else 0)).sum := by
  unfold intraSum
  rw [intraEdges_eq hwf hlen,
    sum_flatMap_label g.edges (fun e => labelOf g clusters e.1)
      (fun e => labelOf g clusters e.2) _ clusters.dedup (List.nodup_dedup _)]
  refine congrArg _ (List.map_congr_left fun e he => ?_)
  by_cases hl : labelOf g clusters e.1 = labelOf g clusters e.2
  · have hmem : labelOf g clusters e.2 ∈ clusters := by
      rw [← hl]
      exact labelOf_mem hlen (edge_endpoints hwf he).1
    simp [hl, hmem]
  · simp [hl]

theorem cuts_eq {g : Graph} {clusters : List ℤ}
    (hwf : g.WF) (hlen : clusters.length = g.nodes.length) :
    cuts g clusters = g.edges.filter (fun e =>
      decide (¬ labelOf g clusters e.1 = labelOf g clusters e.2)) := by
  unfold cuts
  refine List.filter_congr fun e he => ?_
  by_cases hl : labelOf g clusters e.1 = labelOf g clusters e.2
  · have hmem : e ∈ intraEdges g clusters := (mem_intraEdges hwf hlen e).2 ⟨he, hl⟩
    simp [hmem, hl]
  · have h1 : e ∉ intraEdges g clusters := fun hmem =>
      hl ((mem_intraEdges hwf hlen e).1 hmem).2
    have h2 : (e.2, e.1) ∉ intraEdges g clusters := fun hmem =>
      hl (((mem_intraEdges hwf hlen (e.2, e.1)).1 hmem).2).symm
    simp [h1, h2, hl]

theorem sparsity_eq_sum {g : Graph} {clusters : List ℤ}
    (hwf : g.WF) (hlen : clusters.length = g.nodes.length) :
    sparsity_score g clusters = (g.edges.map (edgeContrib g clusters)).sum := by
  unfold sparsity_score
  rw [intraSum_eq hwf hlen, cuts_eq hwf hlen, sum_map_filter_eq, ← List.sum_map_add]
  refine congrArg _ (List.map_congr_left fun e _ => ?_)
  unfold edgeContrib
  by_cases hl : labelOf g clusters e.1 = labelOf g clusters e.2 <;> simp [hl]

theorem edgeContrib_pm (g : Graph) (clusters : List ℤ) (e : ℕ × ℕ) :
    edgeContrib g clusters e = cut_score g ∨ edgeContrib g clusters e = -cut_score g := by
  unfold edgeContrib
  split_ifs <;> simp

theorem cut_score_nonneg (g : Graph) : 0 ≤ cut_score g := by
  unfold cut_score
  positivity

/-- C1: with every edge weight nonzero (the signed-graph regime the
specification describes), `sparsity_score` is the sum over all graph edges of
the per-edge contributions of the specification: +1/E for a positive edge kept
inside a cluster or a negative edge cut, -1/E for a negative edge kept inside
or a positive edge cut, with E the total edge count; consequently the score
lies in [-1, 1]. -/
theorem C1_sparsity_score_per_edge (g : Graph) (clusters : List ℤ)
    (hwf : g.WF) (hlen : clusters.length = g.nodes.length) (hne : g.edges ≠ [])
    (hw : ∀ e ∈ g.edges, g.w e.1 e.2 ≠ 0) :
    sparsity_score g clusters = (g.edges.map (specEdgeContrib g clusters)).sum ∧
      -1 ≤ sparsity_score g clusters ∧ sparsity_score g clusters ≤ 1 := by
  have hdec := sparsity_eq_sum hwf hlen
  have hlen0 : (0 : ℚ) < (g.edges.length : ℚ) := by
    have : 0 < g.edges.length := List.length_pos.2 hne
    exact_mod_cast this
  have hunit : (g.edges.length : ℚ) * cut_score g = 1 := by
    unfold cut_score
    field_simp
  refine ⟨?_, ?_⟩
  · rw [hdec]
    refine congrArg _ (List.map_congr_left fun e he => ?_)
    unfold edgeContrib specEdgeContrib
    rcases lt_trichotomy (g.w e.1 e.2) 0 with h | h | h
    · have h2 : ¬ (0 : ℚ) < g.w e.1 e.2 := asymm h
      by_cases hl : labelOf g clusters e.1 = labelOf g clusters e.2 <;> simp [hl, h, h2]
    · exact absurd h (hw e he)
    · have h2 : ¬ g.w e.1 e.2 < 0 := asymm h
      by_cases hl : labelOf g clusters e.1 = labelOf g clusters e.2 <;> simp [hl, h, h2]
  · have hb := sum_bound (edgeContrib g clusters) (cut_score g) (cut_score_nonneg g)
      g.edges (fun x _ => edgeContrib_pm g clusters x)
    rw [hunit] at hb
    rw [hdec]
    exact ⟨by linarith [hb.1], hb.2⟩

/-- C1 witness: a 3-node path with one positive and one negative edge and the
assignment putting the first two nodes in one cluster. -/
theorem C1_witness :
    ((Graph.mk [0, 1, 2] [(0, 1, 1), (1, 2, -1)]).WF ∧
      ([1, 1, 2] : List ℤ).length = (Graph.mk [0, 1, 2] [(0, 1, 1), (1, 2, -1)]).nodes.length ∧
      (Graph.mk [0, 1, 2] [(0, 1, 1), (1, 2, -1)]).edges ≠ [] ∧
      (∀ e ∈ (Graph.mk [0, 1, 2] [(0, 1, 1), (1, 2, -1)]).edges,
        (Graph.mk [0, 1, 2] [(0, 1, 1), (1, 2, -1)]).w e.1 e.2 ≠ 0)) ∧
    (sparsity_score (Graph.mk [0, 1, 2] [(0, 1, 1), (1, 2, -1)]) [1, 1, 2]
        = ((Graph.mk [0, 1, 2] [(0, 1, 1), (1, 2, -1)]).edges.map
            (specEdgeContrib (Graph.mk [0, 1, 2] [(0, 1, 1), (1, 2, -1)]) [1, 1, 2])).sum ∧
      -1 ≤ sparsity_score (Graph.mk [0, 1, 2] [(0, 1, 1), (1, 2, -1)]) [1, 1, 2] ∧
      sparsity_score (Graph.mk [0, 1, 2] [(0, 1, 1), (1, 2, -1)]) [1, 1, 2] ≤ 1) := by
  refine ⟨⟨?_, ?_, ?_, ?_⟩, C1_sparsity_score_per_edge _ _ ?_ ?_ ?_ ?_⟩ <;> decide

/-- C4: a zero-edge graph never yields a numeric sparsity score; the first
statement of `sparsity_score` divides by the edge count and Python raises
ZeroDivisionError immediately, surfacing the condition as a fatal error. -/
theorem C4_zero_edges_fatal (g : Graph) (clusters : List ℤ) (h : g.edges = []) :
    sparsity_scoreE g clusters = Except.error "ZeroDivisionError: division by zero" := by
  simp [sparsity_scoreE, h]

/-- C4 witness: a one-node graph with no edges. -/
theorem C4_witness :
    (Graph.mk [0] []).edges = [] ∧
      sparsity_scoreE (Graph.mk [0] []) [1]
        = Except.error "ZeroDivisionError: division by zero" :=
  ⟨rfl, C4_zero_edges_fatal (Graph.mk [0] []) [1] rfl⟩

/-- C10: an edge of weight exactly 0 is always rewarded: in the per-edge
reading of `sparsity_score` its contribution equals +cut_score = +1/E whether
its endpoints share a cluster label (the non-negative intra-cluster branch)
or not (the non-positive cut branch), the reward is strictly positive, and
the score is the sum of the per-edge contributions. -/
theorem C10_zero_weight_edge (g : Graph) (clusters : List ℤ) (e : ℕ × ℕ)
    (hwf : g.WF) (hlen : clusters.length = g.nodes.length)
    (he : e ∈ g.edges) (hw0 : g.w e.1 e.2 = 0) :
    edgeContrib g clusters e = cut_score g ∧
      0 < cut_score g ∧
      sparsity_score g clusters = (g.edges.map (edgeContrib g clusters)).sum := by
  have hce : edgeContrib g clusters e = cut_score g := by
    unfold edgeContrib
    rw [hw0]
    simp
  have hpos : 0 < cut_score g := by
    unfold cut_score
    have h1 : 0 < g.edges.length := List.length_pos_of_mem he
    have h2 : (0 : ℚ) < (g.edges.length : ℚ) := by exact_mod_cast h1
    positivity
  exact ⟨hce, hpos, sparsity_eq_sum hwf hlen⟩

/-- C10 witness: a weight-0 edge, instantiated once in the intra-cluster
position of the assignment. -/
theorem C10_witness :
    ((Graph.mk [0, 1, 2] [(0, 1, 0), (1, 2, 1)]).WF ∧
      ([1, 1, 2] : List ℤ).length = (Graph.mk [0, 1, 2] [(0, 1, 0), (1, 2, 1)]).nodes.length ∧
      (0, 1) ∈ (Graph.mk [0, 1, 2] [(0, 1, 0), (1, 2, 1)]).edges ∧
      (Graph.mk [0, 1, 2] [(0, 1, 0), (1, 2, 1)]).w 0 1 = 0) ∧
    (edgeContrib (Graph.mk [0, 1, 2] [(0, 1, 0), (1, 2, 1)]) [1, 1, 2] (0, 1)
        = cut_score (Graph.mk [0, 1, 2] [(0, 1, 0), (1, 2, 1)]) ∧
      0 < cut_score (Graph.mk [0, 1, 2] [(0, 1, 0), (1, 2, 1)]) ∧
      sparsity_score (Graph.mk [0, 1, 2] [(0, 1, 0), (1, 2, 1)]) [1, 1, 2]
        = ((Graph.mk [0, 1, 2] [(0, 1, 0), (1, 2, 1)]).edges.map
            (edgeContrib (Graph.mk [0, 1, 2] [(0, 1, 0), (1, 2, 1)]) [1, 1, 2])).sum) := by
  refine ⟨⟨?_, ?_, ?_, ?_⟩, C10_zero_weight_edge _ _ (0, 1) ?_ ?_ ?_ ?_⟩ <;> decide

/-! Orientation invariance of the sparsity score (claim C8). -/

theorem w_symm (g : Graph) (u v : ℕ) : g.w u v = g.w v u := by
  unfold Graph.w
  have hp : (fun (e : ℕ × ℕ × ℚ) => decide ((e.1 = u ∧ e.2.1 = v) ∨ (e.1 = v ∧ e.2.1 = u)))
      = (fun (e : ℕ × ℕ × ℚ) => decide ((e.1 = v ∧ e.2.1 = u) ∨ (e.1 = u ∧ e.2.1 = v))) := by
    funext e
    exact decide_eq_decide.2 or_comm
  rw [hp]

theorem WF_uniq {g : Graph} (hwf : g.WF) {a b : ℕ} (ha : a < g.wedges.length)
    (hb : b < g.wedges.length)
    (h : SamePair (g.wedges.getD a (0, 0, 0)) (g.wedges.getD b (0, 0, 0))) : a = b :=
  hwf.2.2 a (List.mem_range.2 ha) b (List.mem_range.2 hb) h

theorem w_eq_of_match {g : Graph} (hwf : g.WF) {u v : ℕ} {e : ℕ × ℕ × ℚ}
    (he : e ∈ g.wedges) (hm : (e.1 = u ∧ e.2.1 = v) ∨ (e.1 = v ∧ e.2.1 = u)) :
    g.w u v = e.2.2 := by
  unfold Graph.w
  have hissome : (g.wedges.find?
      (fun f => decide ((f.1 = u ∧ f.2.1 = v) ∨ (f.1 = v ∧ f.2.1 = u)))).isSome :=
    List.find?_isSome.2 ⟨e, he, by simpa using hm⟩
  obtain ⟨a, ha⟩ := Option.isSome_iff_exists.1 hissome
  rw [ha]
  have hma : (a.1 = u ∧ a.2.1 = v) ∨ (a.1 = v ∧ a.2.1 = u) := by
    simpa using List.find?_some ha
  have hamem := List.mem_of_find?_eq_some ha
  have hsp : SamePair e a := by
    unfold SamePair
    rcases hm with ⟨h1, h2⟩ | ⟨h1, h2⟩ <;> rcases hma with ⟨h3, h4⟩ | ⟨h3, h4⟩
    · exact Or.inl ⟨h1.trans h3.symm, h2.trans h4.symm⟩
    · exact Or.inr ⟨h1.trans h4.symm, h2.trans h3.symm⟩
    · exact Or.inr ⟨h1.trans h4.symm, h2.trans h3.symm⟩
    · exact Or.inl ⟨h1.trans h3.symm, h2.trans h4.symm⟩
  obtain ⟨ia, hia, hea⟩ := List.getElem_of_mem he
  obtain ⟨ib, hib, heb⟩ := List.getElem_of_mem hamem
  have hab : ia = ib := WF_uniq hwf hia hib (by
    rw [List.getD_eq_getElem _ _ hia, List.getD_eq_getElem _ _ hib, hea, heb]
    exact hsp)
  subst hab
  have hea2 : e = a := hea.symm.trans heb
  rw [hea2]

theorem w_eq_zero {g : Graph} {u v : ℕ}
    (h : ∀ e ∈ g.wedges, ¬ ((e.1 = u ∧ e.2.1 = v) ∨ (e.1 = v ∧ e.2.1 = u))) :
    g.w u v = 0 := by
  unfold Graph.w
  rw [List.find?_eq_none.2 (fun e he => by simpa using h e he)]

theorem samePair_swap_right (e f : ℕ × ℕ × ℚ) :
    SamePair e (swapTriple f) ↔ SamePair e f := by
  unfold SamePair swapTriple
  dsimp
  tauto

theorem samePair_swap_left (e f : ℕ × ℕ × ℚ) :
    SamePair (swapTriple e) f ↔ SamePair e f := by
  unfold SamePair swapTriple
  dsimp
  tauto

theorem flipEdge_eq_self {g : Graph} {i : ℕ} (h : g.wedges.length ≤ i) :
    flipEdge g i = g := by
  obtain ⟨n, w⟩ := g
  unfold flipEdge
  simp only
  rw [List.set_eq_of_length_le h]

theorem flipEdge_WF {g : Graph} (hwf : g.WF) (i : ℕ) : (flipEdge g i).WF := by
  by_cases hile : g.wedges.length ≤ i
  · rw [flipEdge_eq_self hile]
    exact hwf
  push_neg at hile
  obtain ⟨hnd, hend, huniq⟩ := hwf
  have hwf : Graph.WF g := ⟨hnd, hend, huniq⟩
  refine ⟨hnd, ?_, ?_⟩
  · intro e he
    rcases List.mem_or_eq_of_mem_set he with h | h
    · exact hend e h
    · subst h
      have hmem : g.wedges.getD i (0, 0, 0) ∈ g.wedges := by
        rw [List.getD_eq_getElem _ _ hile]
        exact List.getElem_mem hile
      obtain ⟨h1, h2⟩ := hend _ hmem
      exact ⟨h2, h1⟩
  · intro a ha b hb hsp
    unfold flipEdge at ha hb hsp
    simp only [List.length_set, List.mem_range] at ha hb
    have hgd : ∀ k : ℕ, k < g.wedges.length →
        (g.wedges.set i (swapTriple (g.wedges.getD i (0, 0, 0)))).getD k (0, 0, 0)
          = if i = k then swapTriple (g.wedges.getD i (0, 0, 0))
            else g.wedges.getD k (0, 0, 0) := by
      intro k hk
      rw [List.getD_eq_getElem _ _ (by simpa [List.length_set] using hk),
        List.getElem_set]
      by_cases hik : i = k
      · rw [if_pos hik, if_pos hik]
      · rw [if_neg hik, if_neg hik, List.getD_eq_getElem _ _ hk]
    rw [hgd a ha, hgd b hb] at hsp
    by_cases hia : i = a <;> by_cases hib : i = b
    · omega
    · rw [if_pos hia, if_neg hib] at hsp
      exact absurd (WF_uniq hwf hile hb ((samePair_swap_left _ _).1 hsp)) hib
    · rw [if_neg hia, if_pos hib] at hsp
      exact absurd (WF_uniq hwf ha hile ((samePair_swap_right _ _).1 hsp)).symm hia
    · rw [if_neg hia, if_neg hib] at hsp
      exact WF_uniq hwf ha hb hsp

theorem flipEdge_w {g : Graph} (hwf : g.WF) (i : ℕ) (u v : ℕ) :
    (flipEdge g i).w u v = g.w u v := by
  by_cases hile : g.wedges.length ≤ i
  · rw [flipEdge_eq_self hile]
  push_neg at hile
  by_cases hex : ∃ e ∈ g.wedges, (e.1 = u ∧ e.2.1 = v) ∨ (e.1 = v ∧ e.2.1 = u)
  · obtain ⟨e, he, hm⟩ := hex
    rw [w_eq_of_match hwf he hm]
    obtain ⟨j, hj, hej⟩ := List.getElem_of_mem he
    have hlenf : (flipEdge g i).wedges.length = g.wedges.length := by
      unfold flipEdge
      simp [List.length_set]
    have hjf : j < (flipEdge g i).wedges.length := by
      rw [hlenf]
      exact hj
    by_cases hij : i = j
    · have hval : (flipEdge g i).wedges[j] = swapTriple e := by
        show (g.wedges.set i (swapTriple (g.wedges.getD i (0, 0, 0))))[j] = swapTriple e
        rw [List.getElem_set, if_pos hij, List.getD_eq_getElem _ _ hile]
        subst hij
        rw [hej]
      have hmem : swapTriple e ∈ (flipEdge g i).wedges := by
        rw [← hval]
        exact List.getElem_mem _
      have hm2 : ((swapTriple e).1 = u ∧ (swapTriple e).2.1 = v) ∨
          ((swapTriple e).1 = v ∧ (swapTriple e).2.1 = u) := by
        unfold swapTriple
        dsimp
        tauto
      rw [w_eq_of_match (flipEdge_WF hwf i) hmem hm2]
      rfl
    · have hval : (flipEdge g i).wedges[j] = e := by
        show (g.wedges.set i (swapTriple (g.wedges.getD i (0, 0, 0))))[j] = e
        rw [List.getElem_set, if_neg hij, hej]
      have hmem : e ∈ (flipEdge g i).wedges := by
        rw [← hval]
        exact List.getElem_mem _
      exact w_eq_of_match (flipEdge_WF hwf i) hmem hm
  · have hex2 : ∀ e ∈ g.wedges, ¬ ((e.1 = u ∧ e.2.1 = v) ∨ (e.1 = v ∧ e.2.1 = u)) :=
      fun e he hcon => hex ⟨e, he, hcon⟩
    have h1 : g.w u v = 0 := w_eq_zero hex2
    have h2 : (flipEdge g i).w u v = 0 := by
      apply w_eq_zero
      intro e he
      rcases List.mem_or_eq_of_mem_set he with h | h
      · exact hex2 e h
      · subst h
        have hm := hex2 (g.wedges.getD i (0, 0, 0)) (by
          rw [List.getD_eq_getElem _ _ hile]
          exact List.getElem_mem hile)
        unfold swapTriple
        dsimp
        tauto
    rw [h1, h2]

theorem flipEdge_cut_score (g : Graph) (i : ℕ) :
    cut_score (flipEdge g i) = cut_score g := by
  unfold cut_score Graph.edges flipEdge
  simp [List.length_set]

theorem flipEdge_edgeContrib {g : Graph} (hwf : g.WF) (i : ℕ) (clusters : List ℤ) :
    edgeContrib (flipEdge g i) clusters = edgeContrib g clusters := by
  funext e
  unfold edgeContrib
  rw [flipEdge_w hwf i, flipEdge_cut_score]
  rfl

theorem edgeContrib_swap (g : Graph) (clusters : List ℤ) (e : ℕ × ℕ) :
    edgeContrib g clusters (e.2, e.1) = edgeContrib g clusters e := by
  unfold edgeContrib
  dsimp
  rw [if_congr (eq_comm (a := labelOf g clusters e.2) (b := labelOf g clusters e.1)) rfl rfl,
    w_symm g e.2 e.1]

theorem sum_map_set {α : Type} (f : α → ℚ) :
    ∀ (l : List α) (i : ℕ) (a : α), i < l.length →
      ((l.set i a).map f).sum = (l.map f).sum - f (l.getD i a) + f a := by
  intro l
  induction l with
  | nil => intro i a h; simp at h
  | cons x xs ih =>
    intro i a h
    cases i with
    | zero => simp [List.set_cons_zero]; ring
    | succ n =>
      have hn : n < xs.length := by simpa using h
      simp only [List.set_cons_succ, List.map_cons, List.sum_cons, List.getD_cons_succ,
        ih n a hn]
      ring

/-- C8: `sparsity_score` is invariant to edge orientation: presenting any one
stored edge (u, v) as (v, u) leaves the score unchanged, because subgraph
membership, the two-orientation cut test and the symmetric weight lookup are
all insensitive to the stored order of the endpoints. -/
theorem C8_orientation_invariant (g : Graph) (clusters : List ℤ) (i : ℕ)
    (hwf : g.WF) (hlen : clusters.length = g.nodes.length) (hne : g.edges ≠ []) :
    sparsity_score (flipEdge g i) clusters = sparsity_score g clusters := by
  by_cases hile : g.wedges.length ≤ i
  · rw [flipEdge_eq_self hile]
  push_neg at hile
  have hwf2 := flipEdge_WF hwf i
  have hlen2 : clusters.length = (flipEdge g i).nodes.length := hlen
  rw [sparsity_eq_sum hwf2 hlen2, sparsity_eq_sum hwf hlen,
    flipEdge_edgeContrib hwf i clusters]
  have hie : i < g.edges.length := by
    unfold Graph.edges
    simpa using hile
  have hedges : (flipEdge g i).edges
      = g.edges.set i ((g.edges.getD i (0, 0)).2, (g.edges.getD i (0, 0)).1) := by
    unfold flipEdge Graph.edges swapTriple
    rw [List.map_set]
    congr 1
    rw [List.getD_eq_getElem _ _ hile,
      List.getD_eq_getElem (g.wedges.map (fun e => (e.1, e.2.1))) (0, 0)
        (by simpa using hile), List.getElem_map]
  rw [hedges, sum_map_set (edgeContrib g clusters) g.edges i _ hie]
  have hgd : g.edges.getD i ((g.edges.getD i (0, 0)).2, (g.edges.getD i (0, 0)).1)
      = g.edges.getD i (0, 0) := by
    rw [List.getD_eq_getElem _ _ hie, List.getD_eq_getElem _ _ hie]
  rw [hgd, edgeContrib_swap g clusters (g.edges.getD i (0, 0))]
  ring

/-- C8 witness: flipping the stored orientation of the first edge of a
two-edge graph. -/
theorem C8_witness :
    ((Graph.mk [0, 1, 2] [(0, 1, 1), (1, 2, -1)]).WF ∧
      ([1, 1, 2] : List ℤ).length = (Graph.mk [0, 1, 2] [(0, 1, 1), (1, 2, -1)]).nodes.length ∧
      (Graph.mk [0, 1, 2] [(0, 1, 1), (1, 2, -1)]).edges ≠ []) ∧
    sparsity_score (flipEdge (Graph.mk [0, 1, 2] [(0, 1, 1), (1, 2, -1)]) 0) [1, 1, 2]
      = sparsity_score (Graph.mk [0, 1, 2] [(0, 1, 1), (1, 2, -1)]) [1, 1, 2] := by
  refine ⟨⟨?_, ?_, ?_⟩, C8_orientation_invariant _ _ 0 ?_ ?_ ?_⟩ <;> decide

/-! The Removal Validator `_node_sparsity` as a filter (claims C2 and C9). -/

theorem foldl_remove_eq_filter (P : ℕ → Prop) [DecidablePred P] :
    ∀ (l acc : List ℕ), l.Nodup → acc.Nodup →
      l.foldl (fun a x => if P x then a.erase x else a) acc
        = acc.filter (fun y => decide (¬ P y) || !(decide (y ∈ l))) := by
  intro l
  induction l with
  | nil =>
    intro acc _ _
    simp
  | cons x xs ih =>
    intro acc hnd hacc
    have hx : x ∉ xs := (List.nodup_cons.1 hnd).1
    rw [List.foldl_cons]
    by_cases hP : P x
    · rw [if_pos hP, ih (acc.erase x) (List.nodup_cons.1 hnd).2 (hacc.erase x),
        hacc.erase_eq_filter x, List.filter_filter]
      refine List.filter_congr fun y _ => ?_
      by_cases hy : y = x
      · subst hy
        simp [hP, hx]
      · simp [hy]
    · rw [if_neg hP, ih acc (List.nodup_cons.1 hnd).2 hacc]
      refine List.filter_congr fun y _ => ?_
      by_cases hy : y = x
      · subst hy
        simp [hP]
      · simp [hy]

theorem node_sparsity_eq_filter (g : Graph) (removals : List ℕ) (assignment : List ℤ)
    (hnd : removals.Nodup) :
    node_sparsity g removals assignment
      = removals.filter (fun node =>
          !decide (listMax (otherSparsities g assignment node) <
            sparsity_score g assignment - 3/10)) := by
  unfold node_sparsity
  rw [foldl_remove_eq_filter
    (fun node => listMax (otherSparsities g assignment node) <
      sparsity_score g assignment - 3/10) removals removals hnd hnd]
  refine List.filter_congr fun y hy => ?_
  rw [decide_eq_true hy, decide_not]
  simp only [Bool.not_true, Bool.or_false]

/-- C2 (amended): the Removal Validator keeps a flagged node exactly when the
best trial reassignment does NOT fall strictly below baseline - 0.3; the
node is unflagged when every gain measurement puts the best alternative
strictly below that threshold.  (The claim as stated, keeping the node when
the best alternative does not exceed baseline - 0.3, is refuted by
`C2_counterexample`.) -/
theorem C2_kept_iff_not_below (g : Graph) (removals : List ℕ) (assignment : List ℤ)
    (node : ℕ) (hnd : removals.Nodup) (h2 : 2 ≤ assignment.dedup.length)
    (hne : g.edges ≠ []) :
    node ∈ node_sparsity g removals assignment ↔
      node ∈ removals ∧
        ¬ (listMax (otherSparsities g assignment node) <
            sparsity_score g assignment - 3/10) := by
  rw [node_sparsity_eq_filter g removals assignment hnd]
  simp

/-- C2 counterexample: a single positive edge whose endpoints sit in two
different clusters.  Moving node 0 into cluster 2 raises the score from -1
to 1, so the best alternative strictly exceeds baseline - 0.3; the claim
would unflag the node, but the code keeps it flagged. -/
theorem C2_counterexample :
    0 ∈ node_sparsity (Graph.mk [0, 1] [(0, 1, 5)]) [0] [1, 2] ∧
      ¬ (listMax (otherSparsities (Graph.mk [0, 1] [(0, 1, 5)]) [1, 2] 0)
          ≤ sparsity_score (Graph.mk [0, 1] [(0, 1, 5)]) [1, 2] - 3/10) := by
  have e1 : sparsity_score (Graph.mk [0, 1] [(0, 1, 5)]) [1, 2] = -1 := by
    norm_num [sparsity_score, intraSum, intraEdges, cuts, subgraphEdges, node_ids,
      npWhere, cut_score, Graph.w, Graph.edges, labelOf, List.dedup_cons_of_mem,
      List.dedup_cons_of_not_mem, List.dedup_nil, List.flatMap_cons, List.flatMap_nil,
      List.filter_cons, List.range_succ, List.find?]
  have e2 : sparsity_score (Graph.mk [0, 1] [(0, 1, 5)]) [2, 2] = 1 := by
    norm_num [sparsity_score, intraSum, intraEdges, cuts, subgraphEdges, node_ids,
      npWhere, cut_score, Graph.w, Graph.edges, labelOf, List.dedup_cons_of_mem,
      List.dedup_cons_of_not_mem, List.dedup_nil, List.flatMap_cons, List.flatMap_nil,
      List.filter_cons, List.range_succ, List.find?]
  have e3 : otherSparsities (Graph.mk [0, 1] [(0, 1, 5)]) [1, 2] 0 = [1] := by
    norm_num [otherSparsities, List.dedup_cons_of_mem, List.dedup_cons_of_not_mem,
      List.dedup_nil, List.filter_cons, e2]
  constructor
  · have e4 : node_sparsity (Graph.mk [0, 1] [(0, 1, 5)]) [0] [1, 2] = [0] := by
      rw [node_sparsity_eq_filter _ _ _ (by decide), List.filter_cons, e3, e1]
      norm_num [listMax]
    rw [e4]
    decide
  · rw [e3, e1]
    norm_num [listMax]

/-- C2 witness for the amended theorem, at the counterexample instance. -/
theorem C2_witness :
    (([0] : List ℕ).Nodup ∧ 2 ≤ ([1, 2] : List ℤ).dedup.length ∧
      (Graph.mk [0, 1] [(0, 1, 1)]).edges ≠ []) ∧
    (0 ∈ node_sparsity (Graph.mk [0, 1] [(0, 1, 1)]) [0] [1, 2] ↔
      0 ∈ ([0] : List ℕ) ∧
        ¬ (listMax (otherSparsities (Graph.mk [0, 1] [(0, 1, 1)]) [1, 2] 0) <
            sparsity_score (Graph.mk [0, 1] [(0, 1, 1)]) [1, 2] - 3/10)) := by
  refine ⟨⟨?_, ?_, ?_⟩, C2_kept_iff_not_below _ _ _ 0 ?_ ?_ ?_⟩ <;> decide

/-- C9: the Removal Validator is idempotent: with the same graph and
assignment (baseline recomputed, hence identical), running `_node_sparsity`
on its own confirmed output returns that output unchanged, because the
keep/unflag test of each node does not depend on the flagged set. -/
theorem C9_validator_idempotent (g : Graph) (removals : List ℕ)
    (assignment : List ℤ) (hnd : removals.Nodup)
    (h2 : 2 ≤ assignment.dedup.length) (hne : g.edges ≠ []) :
    node_sparsity g (node_sparsity g removals assignment) assignment
      = node_sparsity g removals assignment := by
  have hnd2 : (node_sparsity g removals assignment).Nodup := by
    rw [node_sparsity_eq_filter g removals assignment hnd]
    exact hnd.filter _
  rw [node_sparsity_eq_filter g _ assignment hnd2,
    node_sparsity_eq_filter g removals assignment hnd, List.filter_filter]
  refine List.filter_congr fun y _ => ?_
  cases decide (listMax (otherSparsities g assignment y) <
    sparsity_score g assignment - 3/10) <;> simp

/-- C9 witness: the validator output of the C2 instance is a fixed point. -/
theorem C9_witness :
    (([0] : List ℕ).Nodup ∧ 2 ≤ ([1, 2] : List ℤ).dedup.length ∧
      (Graph.mk [0, 1] [(0, 1, 1)]).edges ≠ []) ∧
    node_sparsity (Graph.mk [0, 1] [(0, 1, 1)])
        (node_sparsity (Graph.mk [0, 1] [(0, 1, 1)]) [0] [1, 2]) [1, 2]
      = node_sparsity (Graph.mk [0, 1] [(0, 1, 1)]) [0] [1, 2] := by
  refine ⟨⟨?_, ?_, ?_⟩, C9_validator_idempotent _ _ _ ?_ ?_ ?_⟩ <;> decide

/-! The hard-cluster fallback when the random baseline wins (claim C3). -/

theorem argmaxAux_of_le (l : List ℚ) :
    ∀ (i : ℕ) (bv : ℚ) (best : ℕ), (∀ x ∈ l, ¬ bv < x) →
      argmaxAux l i bv best = best := by
  induction l with
  | nil =>
    intro i bv best _
    rfl
  | cons x xs ih =>
    intro i bv best h
    unfold argmaxAux
    rw [if_neg (h x (by simp))]
    exact ih _ _ _ (fun y hy => h y (by simp [hy]))

theorem npArgmax_zero (b : ℚ) (cands : List ℚ) (h : ∀ x ∈ cands, x < b) :
    npArgmax (b :: cands) = 0 := by
  unfold npArgmax
  exact argmaxAux_of_le cands 1 b 0 (fun x hx => asymm (h x hx))

/-- C3: when the random 2-label baseline strictly beats every KMeans
candidate in [min_clusters, max_clusters], the warning condition fires
(topscore < min_clusters) and the final vector is produced by rerunning the
clustering primitive at k = min_clusters - 1, one below the advertised
minimum, then shifting labels by +1.  This documents the off-by-one in
`topscore = argmax(scores) + min_clusters - 1` at argmax = 0: the warning
text promises the minimum value, the spec says k_min, but the code runs
KMeans(min_clusters - 1). -/
theorem C3_baseline_fallback (g : Graph) (scoremat : List (List ℚ))
    (fit_predict : List (List ℚ) → ℤ → List ℤ) (randomclust : List ℤ)
    (max_clusters min_clusters : ℤ)
    (hbeats : ∀ k ∈ intRange min_clusters (max_clusters + 1),
      sparsity_score g (fit_predict scoremat k) < sparsity_score g randomclust) :
    cluster_hard g scoremat fit_predict randomclust max_clusters min_clusters
        = (fit_predict scoremat (min_clusters - 1)).map (fun x => x + 1) ∧
      hardWarnCondition g scoremat fit_predict randomclust max_clusters min_clusters := by
  have hzero : npArgmax (sparsity_score g randomclust ::
      (intRange min_clusters (max_clusters + 1)).map
        (fun i => sparsity_score g (fit_predict scoremat i))) = 0 := by
    apply npArgmax_zero
    intro x hx
    obtain ⟨k, hk, rfl⟩ := List.mem_map.1 hx
    exact hbeats k hk
  constructor
  · simp only [cluster_hard, hzero]
    norm_num
  · simp only [hardWarnCondition, hzero]
    push_cast
    omega

/-- C3 witness: a single positive edge; the random baseline [0, 0] keeps it
intra-cluster (score 1) while the k=2 candidate cuts it (score -1), so the
fallback branch runs the primitive at k = 1 = min_clusters - 1. -/
theorem C3_witness :
    (∀ k ∈ intRange 2 (2 + 1),
      sparsity_score (Graph.mk [0, 1] [(0, 1, 5)])
          ((fun (_ : List (List ℚ)) (k : ℤ) => if k = 2 then [0, 1] else ([0, 0] : List ℤ)) [] k)
        < sparsity_score (Graph.mk [0, 1] [(0, 1, 5)]) [0, 0]) ∧
    (cluster_hard (Graph.mk [0, 1] [(0, 1, 5)]) []
          (fun (_ : List (List ℚ)) (k : ℤ) => if k = 2 then [0, 1] else ([0, 0] : List ℤ))
          [0, 0] 2 2
        = ((fun (_ : List (List ℚ)) (k : ℤ) => if k = 2 then [0, 1] else ([0, 0] : List ℤ))
            [] (2 - 1)).map (fun x => x + 1) ∧
      hardWarnCondition (Graph.mk [0, 1] [(0, 1, 5)]) []
        (fun (_ : List (List ℚ)) (k : ℤ) => if k = 2 then [0, 1] else ([0, 0] : List ℤ))
        [0, 0] 2 2) := by
  have e1 : sparsity_score (Graph.mk [0, 1] [(0, 1, 5)]) [0, 1] = -1 := by
    norm_num [sparsity_score, intraSum, intraEdges, cuts, subgraphEdges, node_ids,
      npWhere, cut_score, Graph.w, Graph.edges, labelOf, List.dedup_cons_of_mem,
      List.dedup_cons_of_not_mem, List.dedup_nil, List.flatMap_cons, List.flatMap_nil,
      List.filter_cons, List.range_succ, List.find?]
  have e2 : sparsity_score (Graph.mk [0, 1] [(0, 1, 5)]) [0, 0] = 1 := by
    norm_num [sparsity_score, intraSum, intraEdges, cuts, subgraphEdges, node_ids,
      npWhere, cut_score, Graph.w, Graph.edges, labelOf, List.dedup_cons_of_mem,
      List.dedup_cons_of_not_mem, List.dedup_nil, List.flatMap_cons, List.flatMap_nil,
      List.filter_cons, List.range_succ, List.find?]
  have hbeats : ∀ k ∈ intRange 2 (2 + 1),
      sparsity_score (Graph.mk [0, 1] [(0, 1, 5)])
          ((fun (_ : List (List ℚ)) (k : ℤ) => if k = 2 then [0, 1] else ([0, 0] : List ℤ)) [] k)
        < sparsity_score (Graph.mk [0, 1] [(0, 1, 5)]) [0, 0] := by
    intro k hk
    have hk2 : k = 2 := by
      simp [intRange, List.range_succ] at hk
      omega
    subst hk2
    norm_num [e1, e2]
  exact ⟨hbeats, C3_baseline_fallback _ _ _ _ _ _ hbeats⟩

/-! Unsupported clustering algorithm (claim C5). -/

/-- C5: for any algorithm name other than KMeans, `cluster_hard` performs no
clustering and raises (warning, then `None + 1` TypeError), so the search
yields no assignment, and the top-level `cluster_graph` run propagates the
error on both the hard and the fuzzy route before `nx.set_node_attributes`
is reached: the per-node cluster attribute is never written. -/
theorem C5_unsupported_algorithm (g : Graph)
    (diffusionRes : List (List ℚ) × Bool × Bool × List (List (List ℚ)))
    (fallbackMat : List (List ℚ)) (fit_predict : List (List ℚ) → ℤ → List ℤ)
    (randomclust : List ℤ) (paths : ℕ → ℕ → Option (List (List ℕ)))
    (max_clusters min_clusters : ℤ) (edgescale : ℚ) (cluster : String)
    (fuzzy : Bool) (scoremat : List (List ℚ)) (halg : cluster ≠ "KMeans") :
    cluster_hardE g cluster scoremat fit_predict randomclust max_clusters min_clusters
        = Except.error "TypeError: unsupported operand type for +: NoneType and int" ∧
      cluster_graphE g diffusionRes fallbackMat fit_predict randomclust paths
          max_clusters min_clusters edgescale cluster fuzzy
        = Except.error "TypeError: unsupported operand type for +: NoneType and int" := by
  have hhard : ∀ sm, cluster_hardE g cluster sm fit_predict randomclust
      max_clusters min_clusters
      = Except.error "TypeError: unsupported operand type for +: NoneType and int" := by
    intro sm
    unfold cluster_hardE
    rw [if_neg halg]
  refine ⟨hhard _, ?_⟩
  obtain ⟨m0, mem, conv, diffs⟩ := diffusionRes
  cases mem <;>
    simp [cluster_graphE, cluster_fuzzyE, hhard, Bind.bind, Except.bind]

/-- C5 witness: requesting the algorithm name Spectral. -/
theorem C5_witness :
    ("Spectral" ≠ "KMeans") ∧
    (cluster_hardE (Graph.mk [0] []) "Spectral" [] (fun _ _ => []) [] 4 2
        = Except.error "TypeError: unsupported operand type for +: NoneType and int" ∧
      cluster_graphE (Graph.mk [0] []) ([], false, false, []) [] (fun _ _ => [])
          [] (fun _ _ => none) 4 2 (1/2) "Spectral" true
        = Except.error "TypeError: unsupported operand type for +: NoneType and int") := by
  refine ⟨?_, C5_unsupported_algorithm _ _ _ _ _ _ _ _ _ _ _ _ ?_⟩ <;> decide

/-! Oscillator detection with fewer than two candidates (claim C6). -/

/-- C6: when fewer than 2 nodes have diagonal-trajectory amplitude strictly
above 0.5 (in particular on an all-zero-amplitude trajectory), no candidate
pair exists, every per-cluster record stays `None` and is filtered away, so
`_core_oscillators` returns an empty oscillator set and an empty
anti-correlation map. -/
theorem C6_few_candidates_empty (g : Graph) (difmats : List (List (List ℚ)))
    (assignment : List ℤ)
    (h : (oscillatorIdx difmats assignment).length < 2) :
    core_oscillators g difmats assignment = ([], []) := by
  have hamp : amplisOf g difmats assignment = [] := by
    unfold amplisOf
    rcases hosc : oscillatorIdx difmats assignment with _ | ⟨a, _ | ⟨b, t⟩⟩
    · simp [pairComb]
    · simp [List.range_succ, List.range_zero, pairComb]
    · rw [hosc] at h
      simp only [List.length_cons] at h
      omega
  have hcn : clusNodesOf g difmats assignment = [] := by
    unfold clusNodesOf
    rw [hamp]
    simp only [List.foldl_nil, List.filterMap_map]
    simp [Function.comp]
  have hcore : coreOscillatorsOf g difmats assignment = [] := by
    unfold coreOscillatorsOf
    rw [hcn]
    simp
  unfold core_oscillators
  rw [hcore]
  simp [pairComb, List.foldl_nil]

/-- C6 witness: one 2x2 zero diffusion matrix, so every node has amplitude
0. -/
theorem C6_witness :
    ((oscillatorIdx [[[0, 0], [0, 0]]] [1, 2]).length < 2) ∧
      core_oscillators (Graph.mk [0, 1] [(0, 1, 1)]) [[[0, 0], [0, 0]]] [1, 2]
        = ([], []) := by
  have h : (oscillatorIdx [[[0, 0], [0, 0]]] ([1, 2] : List ℤ)).length < 2 := by
    norm_num [oscillatorIdx, diagSeq, amplitude, listMax, listMin,
      List.range_succ, List.filter_cons]
  exact ⟨h, C6_few_candidates_empty _ _ _ h⟩

/-! Unreachable targets in the path-conflict scan (claim C7). -/

/-- C7: for an oscillator node and a target with no shortest path (the
collaborator raises NetworkXNoPath, modelled by `none`), the resonance value
stored in `corrdict[node]` for that target is exactly -1, the
unreachable-target diagnostic condition fires for that target, and the scan
continues: `corrdict[node]` still receives an entry for every graph node. -/
theorem C7_no_path_resonance (g : Graph)
    (paths : ℕ → ℕ → Option (List (List ℕ))) (core : List ℕ) (node target : ℕ)
    (hnode : node ∈ core) (htarget : target ∈ g.nodes)
    (hnopath : paths node target = none) :
    corrVal g paths node target = -1 ∧
      (target, (-1 : ℚ)) ∈ corrdictFor g paths node ∧
      target ∈ noPathTargets g paths node ∧
      (corrdictFor g paths node).map Prod.fst = g.nodes := by
  have hval : corrVal g paths node target = -1 := by
    unfold corrVal
    rw [hnopath]
  refine ⟨hval, ?_, ?_, ?_⟩
  · unfold corrdictFor
    exact List.mem_map.2 ⟨target, htarget, by rw [hval]⟩
  · unfold noPathTargets
    rw [List.mem_filter]
    exact ⟨htarget, by rw [hnopath]; rfl⟩
  · unfold corrdictFor
    rw [List.map_map]
    exact List.map_id _

/-- C7 witness: a two-node graph whose shortest-path collaborator reports no
path from oscillator 0 to target 1. -/
theorem C7_witness :
    ((0 : ℕ) ∈ [0] ∧ (1 : ℕ) ∈ (Graph.mk [0, 1] [(0, 1, 1)]).nodes ∧
      (fun (_ : ℕ) (t : ℕ) => if t = 0 then some [[0]] else none) 0 1 = none) ∧
    (corrVal (Graph.mk [0, 1] [(0, 1, 1)])
        (fun (_ : ℕ) (t : ℕ) => if t = 0 then some [[0]] else none) 0 1 = -1 ∧
      (1, (-1 : ℚ)) ∈ corrdictFor (Graph.mk [0, 1] [(0, 1, 1)])
        (fun (_ : ℕ) (t : ℕ) => if t = 0 then some [[0]] else none) 0 ∧
      1 ∈ noPathTargets (Graph.mk [0, 1] [(0, 1, 1)])
        (fun (_ : ℕ) (t : ℕ) => if t = 0 then some [[0]] else none) 0 ∧
      (corrdictFor (Graph.mk [0, 1] [(0, 1, 1)])
          (fun (_ : ℕ) (t : ℕ) => if t = 0 then some [[0]] else none) 0).map Prod.fst
        = (Graph.mk [0, 1] [(0, 1, 1)]).nodes) := by
  refine ⟨⟨?_, ?_, ?_⟩, C7_no_path_resonance _ _ [0] 0 1 ?_ ?_ ?_⟩ <;> decide

end Manta
